import Mathlib

/-!
Verification of the free-list allocator in `src/main.rs` (crate
`allocateurharjit`, a `no_std` binary for x86_64).

Shallow embedding conventions:

* Machine integers (`usize`) are modelled as `Nat`.  All inputs used by
  the theorems are far below `2^64`, so wrapping never occurs.
* `Block` in the source is an intrusive header `{ size: usize, next: *mut Block }`
  written at the start of a free region.  In the embedding a `Block`
  records its own location `addr` (in the source this is implicit — it is
  the header's address, returned by `starting_addr`) together with the
  stored `size` field.  The intrusive `next` chain starting at
  `free_list` is represented by a Lean `List Block` in the same order,
  the list head being the block pointed to by `free_list`.
* `mem::size_of::<Block>() = 16` and `mem::align_of::<Block>() = 8` on the
  x86_64 target (`usize` and a pointer, `#[repr(C)]`).
* `Result<usize, ()>` is modelled as `Option Nat` (`Ok a ↦ some a`,
  `Err(()) ↦ none`), and a nullable `*mut u8` result as `Option Nat`
  (`null_mut() ↦ none`).
-/

/-- A free-region header: its own address and its `size` field.
The source's `next` pointer is the tail of the enclosing list. -/
structure Block where
  addr : Nat
  size : Nat
deriving DecidableEq, Repr

/-- `mem::size_of::<Block>()` on the x86_64 target: 8 (usize) + 8 (pointer). -/
def blockSize : Nat := 16

/-- `mem::align_of::<Block>()` on the x86_64 target. -/
def blockAlign : Nat := 8

/-- `Block::starting_addr`: the block's own address. -/
def Block.starting_addr (b : Block) : Nat := b.addr

/-- `Block::finishing_addr`: `starting_addr + size`. -/
def Block.finishing_addr (b : Block) : Nat := b.starting_addr + b.size

/-- The allocator state: the chain of blocks reachable from `free_list`. -/
abbrev FreeList := List Block

/-- Round `n` up to the next multiple of `align`.  For a power-of-two
`align` (guaranteed by Rust's `Layout`) this equals the source's bit
trick `(n + align - 1) & !(align - 1)`, used in `pad_to_align` and in
`check_block_allocation`; no wrapping occurs at the sizes considered. -/
def alignUp (n align : Nat) : Nat := (n + align - 1) / align * align

/-- `FreeListAllocator::adjust_layout`: raise the alignment to at least
`align_of::<Block>()` (`Layout::align_to`), round the size up to a
multiple of that alignment (`Layout::pad_to_align`), then take the max
with `size_of::<Block>()`.  Returns `(adjusted_size, adjusted_align)`. -/
def adjust_layout (size align : Nat) : Nat × Nat :=
  let a := max align blockAlign
  let padded := alignUp size a
  (max padded blockSize, a)

/-- The search loop of `GlobalAlloc::alloc` for `FreeListAllocator`:
walk the list; the first block with `size >= adjusted_size` is unlinked
(the predecessor's `next`, or the head, is patched over it) and its
`starting_addr` is returned.  Returns the result together with the
free list left behind. -/
def allocLoop (adjusted_size : Nat) : FreeList → Option Nat × FreeList
  | [] => (none, [])
  | b :: rest =>
    if adjusted_size ≤ b.size then
      (some b.starting_addr, rest)
    else
      let r := allocLoop adjusted_size rest
      (r.1, b :: r.2)

/-- `GlobalAlloc::alloc` for `FreeListAllocator`: adjust the layout,
then run the search loop. -/
def alloc (fl : FreeList) (size align : Nat) : Option Nat × FreeList :=
  allocLoop (adjust_layout size align).1 fl

/-- `FreeListAllocator::insert_free_region`: drop the region silently if
it is smaller than a header or misaligned for one; otherwise write a
header at `addr` and push it at the list head. -/
def insert_free_region (fl : FreeList) (addr size : Nat) : FreeList :=
  if size < blockSize ∨ addr % blockAlign ≠ 0 then fl
  else ⟨addr, size⟩ :: fl

/-- `GlobalAlloc::dealloc` for `FreeListAllocator`: adjust the layout and
insert the freed region. -/
def dealloc (fl : FreeList) (addr size align : Nat) : FreeList :=
  insert_free_region fl addr (adjust_layout size align).1

/-- `FreeListAllocator::init`: insert one region covering the whole heap
into the (initially null) free list. -/
def init (heap_start heap_size : Nat) : FreeList :=
  insert_free_region [] heap_start heap_size

/-- `FreeListAllocator::check_block_allocation`: align the block's start
address up to `alignment` and test whether `aligned + size` still fits
within the block.  `Ok(aligned)` on success, `Err(())` otherwise. -/
def check_block_allocation (b : Block) (size alignment : Nat) : Option Nat :=
  let aligned_address := alignUp b.starting_addr alignment
  if aligned_address + size ≤ b.finishing_addr then some aligned_address
  else none

/-- The loop of `FreeListAllocator::find_block` (present in the source
but never called): walk the list, unlink and return the first block
passing `check_block_allocation`, together with the aligned address. -/
def find_blockLoop (size alignment : Nat) :
    FreeList → Option (Block × Nat) × FreeList
  | [] => (none, [])
  | b :: rest =>
    match check_block_allocation b size alignment with
    | some a => (some (b, a), rest)
    | none =>
      let r := find_blockLoop size alignment rest
      (r.1, b :: r.2)

/-- `FreeListAllocator::find_block` (dead code in the source). -/
def find_block (fl : FreeList) (size alignment : Nat) :
    Option (Block × Nat) × FreeList :=
  find_blockLoop size alignment fl

/-- Well-formedness of the free list: every reachable region is big
enough to host a header and aligned for one. -/
def WF (fl : FreeList) : Prop :=
  ∀ b ∈ fl, blockSize ≤ b.size ∧ b.addr % blockAlign = 0

instance : DecidablePred WF := fun fl =>
  inferInstanceAs (Decidable (∀ b ∈ fl, blockSize ≤ b.size ∧ b.addr % blockAlign = 0))

/- ### Helper lemmas -/

theorem allocLoop_mem {adjusted_size : Nat} {fl : FreeList} {b : Block}
    (h : b ∈ (allocLoop adjusted_size fl).2) : b ∈ fl := by
  induction fl with
  | nil => simp [allocLoop] at h
  | cons c rest ih =>
    by_cases hc : adjusted_size ≤ c.size
    · simp only [allocLoop, if_pos hc] at h
      exact List.mem_cons_of_mem _ h
    · simp only [allocLoop, if_neg hc, List.mem_cons] at h
      rcases h with h | h
      · exact h ▸ List.mem_cons_self _ _
      · exact List.mem_cons_of_mem _ (ih h)

theorem allocLoop_none {adjusted_size : Nat} {fl : FreeList}
    (h : ∀ b ∈ fl, b.size < adjusted_size) :
    allocLoop adjusted_size fl = (none, fl) := by
  induction fl with
  | nil => rfl
  | cons c rest ih =>
    have hc : ¬ adjusted_size ≤ c.size :=
      not_le.mpr (h c (List.mem_cons_self _ _))
    simp only [allocLoop, if_neg hc,
      ih (fun b hb => h b (List.mem_cons_of_mem _ hb))]

theorem allocLoop_fst_none {adjusted_size : Nat} {fl : FreeList}
    (h : (allocLoop adjusted_size fl).1 = none) :
    (allocLoop adjusted_size fl).2 = fl := by
  induction fl with
  | nil => rfl
  | cons c rest ih =>
    by_cases hc : adjusted_size ≤ c.size
    · simp [allocLoop, if_pos hc] at h
    · simp only [allocLoop, if_neg hc] at h ⊢
      rw [ih h]

theorem insert_WF {fl : FreeList} {addr size : Nat} (h : WF fl) :
    WF (insert_free_region fl addr size) := by
  intro b hb
  unfold insert_free_region at hb
  by_cases hc : size < blockSize ∨ addr % blockAlign ≠ 0
  · rw [if_pos hc] at hb
    exact h b hb
  · rw [if_neg hc] at hb
    push_neg at hc
    rcases List.mem_cons.mp hb with rfl | hb
    · exact ⟨hc.1, hc.2⟩
    · exact h b hb

theorem alignUp_dvd (n a : Nat) : a ∣ alignUp n a :=
  dvd_mul_left a ((n + a - 1) / a)

theorem le_alignUp (n a : Nat) (ha : 0 < a) : n ≤ alignUp n a := by
  have h : (n + a - 1) % a < a := Nat.mod_lt _ ha
  have h2 : (n + a - 1) / a * a + (n + a - 1) % a = n + a - 1 :=
    Nat.div_add_mod' _ _
  unfold alignUp
  omega

theorem alignUp_eq_self {n a : Nat} (ha : 0 < a) (h : a ∣ n) : alignUp n a = n := by
  rcases h with ⟨m, rfl⟩
  unfold alignUp
  rw [show a * m + a - 1 = a - 1 + a * m by omega]
  rw [Nat.add_mul_div_left _ _ ha]
  rw [Nat.div_eq_of_lt (by omega)]
  rw [Nat.zero_add, Nat.mul_comm]

theorem alignUp_mono (a : Nat) {n m : Nat} (h : n ≤ m) :
    alignUp n a ≤ alignUp m a :=
  Nat.mul_le_mul_right _ (Nat.div_le_div_right (by omega))

theorem alignUp_eq_align {n a : Nat} (h1 : 1 ≤ n) (h2 : n ≤ a) : alignUp n a = a := by
  unfold alignUp
  have hq : (n + a - 1) / a = 1 := Nat.div_eq_of_lt_le (by omega) (by omega)
  rw [hq, Nat.one_mul]

theorem adjust_size_eq {size a : Nat} (hs : 1 ≤ size)
    (hd : a ∣ 16 ∨ 17 ≤ a) (ha : 0 < a) :
    max (alignUp size a) 16 = alignUp (max size 16) a := by
  rcases hd with hd | hd
  · by_cases hle : size ≤ 16
    · rw [max_eq_right hle, alignUp_eq_self ha hd]
      refine max_eq_right ?_
      calc alignUp size a ≤ alignUp 16 a := alignUp_mono a hle
        _ = 16 := alignUp_eq_self ha hd
    · push_neg at hle
      rw [max_eq_left (le_of_lt hle)]
      exact max_eq_left (by have := le_alignUp size a ha; omega)
  · by_cases hle : size ≤ 16
    · rw [max_eq_right hle, @alignUp_eq_align size a hs (by omega),
        @alignUp_eq_align 16 a (by omega) (by omega)]
      exact max_eq_left (by omega)
    · push_neg at hle
      rw [max_eq_left (le_of_lt hle)]
      exact max_eq_left (by have := le_alignUp size a ha; omega)

theorem pow_two_max_eight (k : Nat) :
    (max (2 ^ k) 8) ∣ 16 ∨ 17 ≤ max (2 ^ k) 8 := by
  by_cases hk : k ≤ 4
  · left
    have h1 : (2 : Nat) ^ k ∣ 2 ^ 4 := pow_dvd_pow 2 hk
    have h1' : (2 : Nat) ^ k ∣ 16 := by simpa using h1
    have h2 : (8 : Nat) ∣ 16 := by decide
    by_cases hm : (8 : Nat) ≤ 2 ^ k
    · rw [max_eq_left hm]; exact h1'
    · push_neg at hm; rw [max_eq_right (le_of_lt hm)]; exact h2
  · right
    push_neg at hk
    have h5 : (2 : Nat) ^ 5 ≤ 2 ^ k := Nat.pow_le_pow_right (by omega) (by omega)
    have h32 : (32 : Nat) ≤ 2 ^ k := by simpa using h5
    calc (17 : Nat) ≤ 32 := by omega
      _ ≤ 2 ^ k := h32
      _ ≤ max (2 ^ k) 8 := le_max_left _ _

/- ### Claim theorems -/

/-- C1: evaluation at the failing input.  On the free list holding the
single region at address 8 of size 64 (reachable via `init 8 64`), a
request for 16 bytes at alignment 16 makes `alloc` return the region's
raw start address 8: the code only tests `size >= adjusted_size` and
never aligns.  The source's own (dead) fit-test routine `find_block`
applied to the same adjusted request returns the aligned address 16, as
the claim describes — so the claim matches the intended fit test, and
`alloc` deviates from it by not calling `find_block`. -/
theorem C1_code_eval :
    alloc [⟨8, 64⟩] 16 16 = (some 8, []) ∧
    find_block [⟨8, 64⟩] (adjust_layout 16 16).1 (adjust_layout 16 16).2 =
      (some (⟨8, 64⟩, 16), []) ∧
    (8 : Nat) ≠ 16 := by decide

/-- C2: evaluation at the failing input.  From `init 8 64` (a valid
arena: 8-aligned base, 64 bytes), `alloc` for 16 bytes at alignment 16
succeeds with address 8, and 8 is not a multiple of the requested
alignment 16 — the alignment invariant fails on the code. -/
theorem C2_code_eval :
    (alloc (init 8 64) 16 16).1 = some 8 ∧ (8 : Nat) % 16 ≠ 0 := by decide

/-- C3: evaluation at the failing input.  From `init 64 1024`,
allocating 16 bytes at alignment 8 consumes the entire 1024-byte sole
region: the free list left behind is empty (no remainder of size
1024 - 16 = 1008 is reinserted), and a second identical allocation
fails, contradicting the split-and-reinsert behavior the claim
describes. -/
theorem C3_code_eval :
    alloc (init 64 1024) 16 8 = (some 64, []) ∧
    (alloc (alloc (init 64 1024) 16 8).2 16 8).1 = none := by decide

/-- C4: counterexample.  Deallocating two physically adjacent regions
(32 bytes at 64 and 32 bytes at 96; the first ends exactly where the
second starts) leaves the free list with the two separate entries, not
a single region spanning the combined extent, and a subsequent `alloc`
of 48 bytes — more than either region, less than the combined 64 —
fails: `dealloc` performs no coalescing pass. -/
theorem C4_counterexample :
    dealloc (dealloc [] 64 32 8) 96 32 8 = [⟨96, 32⟩, ⟨64, 32⟩] ∧
    Block.finishing_addr ⟨64, 32⟩ = Block.starting_addr ⟨96, 32⟩ ∧
    dealloc (dealloc [] 64 32 8) 96 32 8 ≠ [⟨64, 64⟩] ∧
    (alloc (dealloc (dealloc [] 64 32 8) 96 32 8) 48 8).1 = none := by decide

/-- C4 (amended): `dealloc` only pushes the freed region at the head of
the free list and performs no coalescing: for any header-aligned
address, deallocating the adjacent 32-byte regions at `addr` and
`addr + 32` leaves two separate free-list entries, and an `alloc` of 48
bytes — exceeding each individual region though fitting their combined
extent — returns the out-of-memory result. -/
theorem C4_amended (addr : Nat) (h : addr % blockAlign = 0) :
    dealloc (dealloc [] addr 32 8) (addr + 32) 32 8 =
      [⟨addr + 32, 32⟩, ⟨addr, 32⟩] ∧
    (alloc (dealloc (dealloc [] addr 32 8) (addr + 32) 32 8) 48 8).1 = none := by
  simp only [blockAlign] at h
  have ha32 : (adjust_layout 32 8).1 = 32 := by decide
  have h1 : dealloc [] addr 32 8 = [⟨addr, 32⟩] := by
    unfold dealloc
    rw [ha32]
    unfold insert_free_region
    rw [if_neg (by simp only [blockSize, blockAlign]; omega)]
  have h2 : dealloc [⟨addr, 32⟩] (addr + 32) 32 8 =
      [⟨addr + 32, 32⟩, ⟨addr, 32⟩] := by
    unfold dealloc
    rw [ha32]
    unfold insert_free_region
    rw [if_neg (by simp only [blockSize, blockAlign]; omega)]
  rw [h1, h2]
  refine ⟨rfl, ?_⟩
  have ha48 : (adjust_layout 48 8).1 = 48 := by decide
  have hlt : ∀ b ∈ ([⟨addr + 32, 32⟩, ⟨addr, 32⟩] : FreeList), b.size < 48 := by
    intro b hb
    rcases List.mem_cons.mp hb with rfl | hb
    · show (32 : Nat) < 48; omega
    rcases List.mem_cons.mp hb with rfl | hb
    · show (32 : Nat) < 48; omega
    · simp at hb
  unfold alloc
  rw [ha48, allocLoop_none hlt]

/-- C4 (amended) witness at `addr = 64`. -/
theorem C4_amended_witness :
    dealloc (dealloc [] 64 32 8) (64 + 32) 32 8 =
      [⟨64 + 32, 32⟩, ⟨64, 32⟩] ∧
    (alloc (dealloc (dealloc [] 64 32 8) (64 + 32) 32 8) 48 8).1 = none :=
  C4_amended 64 (by decide)

/-- C5: counterexample.  For the zero-size layout at alignment 32
(`Layout::from_size_align(0, 32)` is a valid layout), the code returns
adjusted size 16 whereas the claimed formula — `max(size, size_of(Block))`
rounded up to a multiple of the adjusted alignment — gives 32; and 16 is
not a multiple of the adjusted alignment 32, refuting the
"always a multiple of the adjusted alignment" consequence.  The cause:
the code pads to the alignment *before* taking the max with the header
size. -/
theorem C5_counterexample :
    adjust_layout 0 32 = (16, 32) ∧
    alignUp (max 0 blockSize) (max 32 blockAlign) = 32 ∧
    (adjust_layout 0 32).1 ≠ alignUp (max 0 blockSize) (max 32 blockAlign) ∧
    (adjust_layout 0 32).1 % (adjust_layout 0 32).2 ≠ 0 := by decide

/-- C5 (amended): for every layout with `size ≥ 1` (alignment a power of
two, as `Layout` guarantees), the adjusted request equals
`(max(size, size_of(Block))` rounded up to a multiple of
`max(alignment, align_of(Block)), max(alignment, align_of(Block)))`,
and the adjusted size is at least one `Block` header and a multiple of
the adjusted alignment.  Only the degenerate `size = 0` layouts with
alignment above 16 escape the claimed formula. -/
theorem C5_amended (size align : Nat) (hs : 1 ≤ size) (hp : ∃ k, align = 2 ^ k) :
    adjust_layout size align =
      (alignUp (max size blockSize) (max align blockAlign), max align blockAlign) ∧
    blockSize ≤ (adjust_layout size align).1 ∧
    (adjust_layout size align).1 % (adjust_layout size align).2 = 0 := by
  obtain ⟨k, rfl⟩ := hp
  simp only [adjust_layout, blockSize, blockAlign]
  have hd : max (2 ^ k) 8 ∣ 16 ∨ 17 ≤ max (2 ^ k) 8 := pow_two_max_eight k
  have ha : 0 < max (2 ^ k) 8 := lt_of_lt_of_le (by omega) (le_max_right _ _)
  have hmain := adjust_size_eq hs hd ha
  refine ⟨?_, ?_, ?_⟩
  · rw [hmain]
  · exact le_max_right _ _
  · rcases hd with hd2 | hd2
    · by_cases hle : alignUp size (max (2 ^ k) 8) ≤ 16
      · rw [max_eq_right hle]
        exact Nat.mod_eq_zero_of_dvd hd2
      · push_neg at hle
        rw [max_eq_left (le_of_lt hle)]
        exact Nat.mod_eq_zero_of_dvd (alignUp_dvd size _)
    · have hpos : 0 < alignUp size (max (2 ^ k) 8) :=
        lt_of_lt_of_le hs (le_alignUp size _ ha)
      have hge : max (2 ^ k) 8 ≤ alignUp size (max (2 ^ k) 8) :=
        Nat.le_of_dvd hpos (alignUp_dvd size _)
      rw [max_eq_left (by omega)]
      exact Nat.mod_eq_zero_of_dvd (alignUp_dvd size _)

/-- C5 (amended) witness at `size = 1`, `align = 1 = 2^0`. -/
theorem C5_witness :
    adjust_layout 1 1 =
      (alignUp (max 1 blockSize) (max 1 blockAlign), max 1 blockAlign) ∧
    blockSize ≤ (adjust_layout 1 1).1 ∧
    (adjust_layout 1 1).1 % (adjust_layout 1 1).2 = 0 :=
  C5_amended 1 1 (by decide) ⟨0, rfl⟩

/-- C6: counterexample.  On the free list holding the single region at
address 8 of size 16, no region passes the fit test of the claim (the
source's `check_block_allocation` rejects it for the adjusted request of
16 bytes at alignment 16, since aligning 8 up to 16 leaves no room), yet
`alloc` does not return the out-of-memory result: it returns address 8,
because the code's actual test is only `size >= adjusted_size`. -/
theorem C6_counterexample :
    (∀ b ∈ ([⟨8, 16⟩] : FreeList),
      check_block_allocation b (adjust_layout 16 16).1 (adjust_layout 16 16).2
        = none) ∧
    (alloc [⟨8, 16⟩] 16 16).1 = some 8 := by decide

/-- C6 (amended): with the fit test the code actually performs —
`region.size >= adjusted_size` — whenever no region of the free list
satisfies it, `alloc` returns the null result together with the free
list exactly as it was: out-of-memory is a normal return value and the
failed search makes no partial allocation. -/
theorem C6_amended (fl : FreeList) (size align : Nat)
    (h : ∀ b ∈ fl, b.size < (adjust_layout size align).1) :
    alloc fl size align = (none, fl) := by
  unfold alloc
  exact allocLoop_none h

/-- C6 (amended) witness: a 16-byte sole region cannot serve an
adjusted 32-byte request. -/
theorem C6_amended_witness :
    (∀ b ∈ ([⟨24, 16⟩] : FreeList), b.size < (adjust_layout 32 8).1) ∧
    alloc [⟨24, 16⟩] 32 8 = (none, [⟨24, 16⟩]) :=
  ⟨by decide, C6_amended [⟨24, 16⟩] 32 8 (by decide)⟩

/-- C7: `insert_free_region` drops a region smaller than one header or
misaligned for one, leaving the free list unchanged, and in that case
`init` (which is just `insert_free_region` on the empty list) leaves the
free list empty, so every subsequent `alloc` returns out-of-memory;
otherwise it writes a header with the given size at the address and
pushes it at the list head. -/
theorem C7_insert_guard (fl : FreeList) (addr size : Nat) :
    (size < blockSize ∨ addr % blockAlign ≠ 0 →
      insert_free_region fl addr size = fl ∧
      init addr size = [] ∧
      ∀ s a, alloc (init addr size) s a = (none, [])) ∧
    (blockSize ≤ size → addr % blockAlign = 0 →
      insert_free_region fl addr size = ⟨addr, size⟩ :: fl) := by
  constructor
  · intro hbad
    have h1 : insert_free_region fl addr size = fl := by
      unfold insert_free_region
      rw [if_pos hbad]
    have h2 : init addr size = [] := by
      unfold init insert_free_region
      rw [if_pos hbad]
    exact ⟨h1, h2, fun s a => by rw [h2]; rfl⟩
  · intro hsz hal
    unfold insert_free_region
    rw [if_neg (by push_neg; exact ⟨hsz, hal⟩)]

/-- C7 witness: dropping branch at `(addr, size) = (8, 8)` (size below
one header) with a request evaluated at `(16, 8)`, and success branch at
`(addr, size) = (8, 16)`. -/
theorem C7_witness :
    (insert_free_region [] 8 8 = [] ∧ init 8 8 = [] ∧
      alloc (init 8 8) 16 8 = (none, [])) ∧
    insert_free_region [] 8 16 = [⟨8, 16⟩] :=
  ⟨by
    have h := (C7_insert_guard [] 8 8).1 (by decide)
    exact ⟨h.1, h.2.1, h.2.2 16 8⟩,
   (C7_insert_guard [] 8 16).2 (by decide) (by decide)⟩

/-- C8: from a freshly initialized arena (header-aligned base, size at
least one header), `allocate(16, 8)` succeeds returning the base,
`deallocate` of that pointer with the same layout re-inserts it, and a
second `allocate(16, 8)` succeeds again, returning the same address:
the round trip is deterministic and `ptr2 = ptr1 ≠ null`. -/
theorem C8_round_trip (base N : Nat) (hb : base % blockAlign = 0)
    (hN : blockSize ≤ N) :
    (alloc (init base N) 16 8).1 = some base ∧
    alloc (dealloc (alloc (init base N) 16 8).2 base 16 8) 16 8 =
      (some base, []) := by
  simp only [blockAlign] at hb
  simp only [blockSize] at hN
  have h0 : init base N = [⟨base, N⟩] := by
    unfold init insert_free_region
    rw [if_neg (by simp only [blockSize, blockAlign]; omega)]
  have ha16 : (adjust_layout 16 8).1 = 16 := by decide
  have h1 : ∀ M : Nat, 16 ≤ M → alloc [⟨base, M⟩] 16 8 = (some base, []) := by
    intro M hM
    unfold alloc
    rw [ha16]
    simp only [allocLoop]
    rw [if_pos (show 16 ≤ (Block.mk base M).size from hM)]
    rfl
  have h2 : dealloc [] base 16 8 = [⟨base, 16⟩] := by
    unfold dealloc
    rw [ha16]
    unfold insert_free_region
    rw [if_neg (by simp only [blockSize, blockAlign]; omega)]
  refine ⟨?_, ?_⟩
  · rw [h0, h1 N hN]
  · rw [h0, h1 N hN]
    show alloc (dealloc [] base 16 8) 16 8 = (some base, [])
    rw [h2]
    exact h1 16 (by omega)

/-- C8 witness at the arena `init 64 1024`. -/
theorem C8_witness :
    (alloc (init 64 1024) 16 8).1 = some 64 ∧
    alloc (dealloc (alloc (init 64 1024) 16 8).2 64 16 8) 16 8 =
      (some 64, []) :=
  C8_round_trip 64 1024 (by decide) (by decide)

/-- C9: free-list well-formedness is invariant.  `init` produces a
well-formed list from the empty one, and if the current free list is
well-formed (every reachable region at least one header in size, at an
address aligned for a header) then so are the lists left by `alloc` and
by `dealloc`: the guarded `insert_free_region` is the only way a region
enters the list and `alloc` only removes regions. -/
theorem C9_invariant (fl : FreeList) (size align addr sz heap_start heap_size : Nat)
    (h : WF fl) :
    WF (init heap_start heap_size) ∧ WF (alloc fl size align).2 ∧
    WF (dealloc fl addr sz align) := by
  refine ⟨?_, ?_, ?_⟩
  · unfold init
    exact insert_WF (by intro b hb; simp at hb)
  · intro b hb
    exact h b (allocLoop_mem (by simpa [alloc] using hb))
  · unfold dealloc
    exact insert_WF h

/-- C9 witness on the well-formed one-region list at address 8. -/
theorem C9_witness :
    WF (init 16 32) ∧ WF (alloc [⟨8, 16⟩] 24 8).2 ∧
    WF (dealloc [⟨8, 16⟩] 40 24 8) :=
  C9_invariant [⟨8, 16⟩] 24 8 40 24 16 32 (by decide)

/-- C10: when `alloc` fails it returns the free list unchanged — the
out-of-memory path unlinks no region and leaves every header and link
exactly as found. -/
theorem C10_failed_alloc_unchanged (fl : FreeList) (size align : Nat)
    (h : (alloc fl size align).1 = none) :
    (alloc fl size align).2 = fl := by
  unfold alloc at h ⊢
  exact allocLoop_fst_none h

/-- C10 witness: a 100-byte request on a 16-byte sole region fails and
leaves the list intact. -/
theorem C10_witness :
    (alloc [⟨8, 16⟩] 100 8).1 = none ∧
    (alloc [⟨8, 16⟩] 100 8).2 = [⟨8, 16⟩] :=
  ⟨by decide, C10_failed_alloc_unchanged [⟨8, 16⟩] 100 8 (by decide)⟩
